import Mathlib

/-!
Verification of the md-browse markdown browser against its specification.

The development shallowly embeds the TypeScript sources:
* the Output Normalizer `cleanupTurndownOutput` (bun process `src/bun/index.ts`
  and the identical copy in `src/toolbar-svelte/lib/rpc.ts`, plus the variant in
  `src/shared/turndown.ts`),
* URL normalization `normalizeUrl` (bun process and view-shim variants),
* the Turndown rule customizations (layout tables, blank links),
* the fetch/classification pipeline `fetchPage`,
* the Tab/Session state machine (navigate, goBack, goForward, closeTab).

JavaScript strings are modelled as `List Char` (with `String` wrappers).
Regular-expression based code is translated into deterministic scanners that
implement the exact matching semantics of the concrete patterns used by the
source (all of them are backtracking-free once the pattern is fixed, except
where noted in comments).  Scanners that restart after the end of a match are
written with an explicit fuel argument so that they stay kernel-computable;
one unit of fuel per character of the input suffices because every step
consumes at least one character, and the initial fuel is `length + 1`.
-/

/-- Whitespace class of JavaScript regular expressions (the ASCII part; the
source strings involved never contain the exotic Unicode space characters). -/
def jsWs (c : Char) : Bool :=
  c = ' ' || c = '\t' || c = '\n' || c = '\r' || c = '\x0b' || c = '\x0c'

/-- JavaScript `String.prototype.trim` on a character list. -/
def jsTrimL (l : List Char) : List Char :=
  ((l.dropWhile jsWs).reverse.dropWhile jsWs).reverse

/-- JavaScript `String.prototype.trim`. -/
def jsTrim (s : String) : String :=
  String.mk (jsTrimL s.data)

/-- One step of collapsing whitespace runs to a single space, the effect of
`replace(/\s+/g, " ")`. -/
def collapseWsL : List Char → List Char
  | [] => []
  | c :: t =>
    if jsWs c then
      match t with
      | [] => [' ']
      | d :: _ => if jsWs d then collapseWsL t else ' ' :: collapseWsL t
    else c :: collapseWsL t

/-- The helper `normalizeWhitespace` of `src/shared/turndown.ts`:
`value.replace(/\s+/g, " ").trim()`. -/
def normalizeWhitespaceL (l : List Char) : List Char :=
  jsTrimL (collapseWsL l)

/-- String version of `normalizeWhitespace`. -/
def normalizeWhitespace (s : String) : String :=
  String.mk (normalizeWhitespaceL s.data)

/-- Split a list at the first occurrence of `c`: returns the part before it
(which does not contain `c`) and the part after it. -/
def breakAt (c : Char) : List Char → Option (List Char × List Char)
  | [] => none
  | x :: xs =>
    if x = c then some ([], xs)
    else (breakAt c xs).map (fun p => (x :: p.1, p.2))

/-- The global replace `markdown.replace(/\[([^\]]*)\]\(([^)]+)\)/g, repl)`.
At a `[` the engine matches the label up to the first `]` (the label cannot
contain `]`), requires `(`, then the URL up to the first `)` (non-empty), and
substitutes `repl label url`; on failure it advances one character.  Scanning
resumes after the end of the match, so replacements are never re-scanned. -/
def linkPassGo (repl : List Char → List Char → List Char) :
    Nat → List Char → List Char
  | 0, l => l
  | _ + 1, [] => []
  | fuel + 1, c :: t =>
    if c = '[' then
      match breakAt ']' t with
      | some (label, r1) =>
        match r1 with
        | '(' :: r2 =>
          match breakAt ')' r2 with
          | some ([], _) => c :: linkPassGo repl fuel t
          | some (url, r3) => repl label url ++ linkPassGo repl fuel r3
          | none => c :: linkPassGo repl fuel t
        | _ => c :: linkPassGo repl fuel t
      | none => c :: linkPassGo repl fuel t
    else c :: linkPassGo repl fuel t

def linkPass (repl : List Char → List Char → List Char) (l : List Char) :
    List Char :=
  linkPassGo repl (l.length + 1) l

/-- Replacement function of the link pass in the bun process
(`cleanupTurndownOutput` in `src/bun/index.ts`): collapse whitespace in the
label and drop the whole link when the cleaned label is empty. -/
def bunLinkRepl (text url : List Char) : List Char :=
  let cleaned := normalizeWhitespaceL text
  if cleaned.isEmpty then []
  else '[' :: cleaned ++ ']' :: '(' :: url ++ [')']

/-- Replacement function of the link pass in `src/shared/turndown.ts`:
additionally rewrites protocol-relative URLs and falls back to the URL as the
label. -/
def sharedLinkRepl (text url : List Char) : List Char :=
  let cleaned := normalizeWhitespaceL text
  let normalizedUrl :=
    if ('/' :: '/' :: []).isPrefixOf url then
      'h' :: 't' :: 't' :: 'p' :: 's' :: ':' :: url
    else url
  let label := if cleaned.isEmpty then normalizedUrl else cleaned
  if label.isEmpty then []
  else '[' :: label ++ ']' :: '(' :: normalizedUrl ++ [')']

/-- The global replaces removing data-URI links in `src/shared/turndown.ts`:
`/!\[[^\]]*\]\(data:[^)]+\)/g` when `img` is true, `/\[[^\]]*\]\(data:[^)]+\)/g`
otherwise.  The URL segment must start with `data:` followed by at least one
character. -/
def dataUriGo (img : Bool) : Nat → List Char → List Char
  | 0, l => l
  | _ + 1, [] => []
  | fuel + 1, c :: t =>
    let leadOk := if img then c = '!' ∧ t.head? = some '[' else c = '['
    let bracketTail := if img then t.tail else t
    if leadOk then
      match breakAt ']' bracketTail with
      | some (_, '(' :: r2) =>
        match breakAt ')' r2 with
        | some (url, r3) =>
          if ('d' :: 'a' :: 't' :: 'a' :: ':' :: []).isPrefixOf url ∧
              5 < url.length then
            dataUriGo img fuel r3
          else c :: dataUriGo img fuel t
        | none => c :: dataUriGo img fuel t
      | _ => c :: dataUriGo img fuel t
    else c :: dataUriGo img fuel t

def dataUriPass (img : Bool) (l : List Char) : List Char :=
  dataUriGo img (l.length + 1) l

/-- Longest whitespace prefix of `l` that ends at a line boundary (end of the
input or immediately before a newline); this is the backtracking behaviour of
the greedy `\s*$` suffix in the multiline pattern `/^\d+\.\s*$/gm`.  Returns
the remaining input after the consumed whitespace, or `none` when no boundary
is reachable. -/
def wsToLineBoundary : List Char → Option (List Char)
  | [] => some []
  | c :: t =>
    if jsWs c then
      (wsToLineBoundary t).orElse
        (fun _ => if c = '\n' then some (c :: t) else none)
    else none

/-- Try to match `\d+\.\s*$` at a line start; on success return the rest of
the input after the match (which is empty or begins with a newline). -/
def matchOrphanNumber (l : List Char) : Option (List Char) :=
  let digits := l.takeWhile Char.isDigit
  if digits.isEmpty then none
  else
    match l.drop digits.length with
    | '.' :: r => wsToLineBoundary r
    | _ => none

/-- Split off the first line including its terminating newline; the second
component is `none` when the input has no newline. -/
def splitFirstLine : List Char → List Char × Option (List Char)
  | [] => ([], none)
  | '\n' :: t => (['\n'], some t)
  | c :: t =>
    let p := splitFirstLine t
    (c :: p.1, p.2)

/-- The global multiline replace `markdown.replace(/^\d+\.\s*$/gm, "")`:
delete orphaned ordered-list markers that sit alone on a line. -/
def orphanGo : Nat → List Char → List Char
  | 0, l => l
  | fuel + 1, l =>
    match matchOrphanNumber l with
    | some rest =>
      match rest with
      | '\n' :: t => '\n' :: orphanGo fuel t
      | r => r
    | none =>
      match splitFirstLine l with
      | (_, none) => l
      | (line, some r) => line ++ orphanGo fuel r

def orphanPass (l : List Char) : List Char :=
  orphanGo (l.length + 1) l

/-- The replace `markdown.replace(/\n{3,}/g, "\n\n")`: runs of three or more
newlines collapse to exactly two.  `run` counts pending newlines. -/
def collapseNlGo (run : Nat) : List Char → List Char
  | [] => List.replicate (if 3 ≤ run then 2 else run) '\n'
  | c :: t =>
    if c = '\n' then collapseNlGo (run + 1) t
    else List.replicate (if 3 ≤ run then 2 else run) '\n' ++ c :: collapseNlGo 0 t

def collapseNlPass (l : List Char) : List Char :=
  collapseNlGo 0 l

/-- The Output Normalizer of the bun process (`cleanupTurndownOutput` in
`src/bun/index.ts`, duplicated verbatim in `src/toolbar-svelte/lib/rpc.ts`):
link-label cleanup, orphaned list-number removal, blank-line collapsing, and a
final trim. -/
def cleanupTurndownOutput (markdown : String) : String :=
  String.mk (jsTrimL (collapseNlPass (orphanPass (linkPass bunLinkRepl markdown.data))))

/-- The Output Normalizer variant of `src/shared/turndown.ts`
(`cleanupTurndownOutput` there): link normalization with URL fallback and
protocol-relative rewriting, data-URI link removal, then the same trailing
steps as the bun variant. -/
def cleanupTurndownOutputShared (markdown : String) : String :=
  let s1 := linkPass sharedLinkRepl markdown.data
  let s2 := dataUriPass true s1
  let s3 := dataUriPass false s2
  String.mk (jsTrimL (collapseNlPass (orphanPass s3)))

/-- Case-insensitive prefix test (ASCII folding, as performed by the `i` flag
on the ASCII-only patterns of the source). -/
def isPrefixOfCI : List Char → List Char → Bool
  | [], _ => true
  | _ :: _, [] => false
  | p :: ps, c :: cs => (p.toLower == c.toLower) && isPrefixOfCI ps cs

/-- The Boolean outcome of `url.match(/^https?:\/\//i)`. -/
def isHttpUrl (l : List Char) : Bool :=
  isPrefixOfCI "http://".data l || isPrefixOfCI "https://".data l

/-- Uppercase hexadecimal digit, for percent-encoding. -/
def hexDigitU (n : Nat) : Char :=
  if n < 10 then Char.ofNat ('0'.toNat + n) else Char.ofNat ('A'.toNat + n - 10)

/-- UTF-8 bytes of a Unicode scalar value. -/
def utf8BytesOf (n : Nat) : List Nat :=
  if n < 0x80 then [n]
  else if n < 0x800 then [0xC0 + n / 0x40, 0x80 + n % 0x40]
  else if n < 0x10000 then
    [0xE0 + n / 0x1000, 0x80 + n / 0x40 % 0x40, 0x80 + n % 0x40]
  else [0xF0 + n / 0x40000, 0x80 + n / 0x1000 % 0x40, 0x80 + n / 0x40 % 0x40,
    0x80 + n % 0x40]

/-- Characters that `encodeURIComponent` leaves unescaped. -/
def uriUnreserved (c : Char) : Bool :=
  c.isAlpha || c.isDigit || c = '-' || c = '_' || c = '.' || c = '!' ||
    c = '~' || c = '*' || c = Char.ofNat 39 || c = '(' || c = ')'

/-- Percent-encoding of a single character (UTF-8 bytes, uppercase hex). -/
def encodeChar (c : Char) : List Char :=
  if uriUnreserved c then [c]
  else (utf8BytesOf c.toNat).foldr
    (fun b acc => '%' :: hexDigitU (b / 16) :: hexDigitU (b % 16) :: acc) []

/-- JavaScript `encodeURIComponent`. -/
def encodeURIComponent (s : String) : String :=
  String.mk (s.data.foldr (fun c acc => encodeChar c ++ acc) [])

/-- Branch structure of the bun-process `normalizeUrl` after the initial
trim (`src/bun/index.ts`): keep `mdbrowse://` and `http(s)://` targets, add
`https://` to dotted space-free input, and send everything else to a search
URL. -/
def normalizeUrlCore (url : List Char) : List Char :=
  if url.isEmpty then []
  else if ("mdbrowse://".data).isPrefixOf url then url
  else if isHttpUrl url then url
  else if url.contains '.' && !(url.contains ' ') then "https://".data ++ url
  else
    "https://duckduckgo.com/?q=".data ++ (encodeURIComponent (String.mk url)).data

/-- URL normalization of the bun process (`normalizeUrl` in
`src/bun/index.ts`). -/
def normalizeUrl (input : String) : String :=
  String.mk (normalizeUrlCore (jsTrimL input.data))

/-- Branch structure of the view-shim `normalizeUrl` after the initial trim
(`src/toolbar-svelte/lib/rpc.ts`): same branches as the bun process, but the
scheme test is a case-sensitive `startsWith` and the fallback simply prepends
`https://`. -/
def normalizeUrlShimCore (url : List Char) : List Char :=
  if url.isEmpty then []
  else if ("mdbrowse://".data).isPrefixOf url then url
  else if ("http://".data).isPrefixOf url || ("https://".data).isPrefixOf url then
    url
  else if url.contains '.' && !(url.contains ' ') then "https://".data ++ url
  else "https://".data ++ url

/-- URL normalization of the view shim (`normalizeUrl` in
`src/toolbar-svelte/lib/rpc.ts`). -/
def normalizeUrlShim (input : String) : String :=
  String.mk (normalizeUrlShimCore (jsTrimL input.data))

theorem dropWhile_head?_false (p : Char → Bool) (l : List Char) :
    ∀ x, (l.dropWhile p).head? = some x → p x = false := by
  induction l with
  | nil => simp [List.dropWhile]
  | cons c t ih =>
    intro x hx
    by_cases hc : p c = true
    · rw [List.dropWhile_cons, if_pos hc] at hx
      exact ih x hx
    · rw [List.dropWhile_cons, if_neg hc] at hx
      simp only [List.head?_cons, Option.some.injEq] at hx
      subst hx
      simpa using hc

theorem dropWhile_eq_self_of_head (p : Char → Bool) (l : List Char)
    (h : ∀ x, l.head? = some x → p x = false) : l.dropWhile p = l := by
  cases l with
  | nil => rfl
  | cons c t =>
    have := h c rfl
    simp [List.dropWhile_cons, this]

theorem dropWhile_dropWhile (p : Char → Bool) (l : List Char) :
    (l.dropWhile p).dropWhile p = l.dropWhile p :=
  dropWhile_eq_self_of_head p _ (dropWhile_head?_false p l)

theorem getLast?_dropWhile_of_ne_nil (p : Char → Bool) (l : List Char)
    (h : l.dropWhile p ≠ []) : (l.dropWhile p).getLast? = l.getLast? := by
  induction l with
  | nil => simp [List.dropWhile] at h
  | cons c t ih =>
    by_cases hc : p c = true
    · rw [List.dropWhile_cons, if_pos hc] at h ⊢
      have ht : t ≠ [] := by
        intro he
        rw [he] at h
        simp [List.dropWhile] at h
      rw [ih h]
      cases t with
      | nil => exact absurd rfl ht
      | cons d t' => rw [List.getLast?_cons_cons]
    · rw [List.dropWhile_cons, if_neg hc]

theorem jsTrimL_head_false (l : List Char) :
    ∀ x, (jsTrimL l).head? = some x → jsWs x = false := by
  intro x hx
  unfold jsTrimL at hx
  rw [List.head?_reverse] at hx
  have hne : ((l.dropWhile jsWs).reverse.dropWhile jsWs) ≠ [] := by
    intro he
    rw [he] at hx
    simp at hx
  rw [getLast?_dropWhile_of_ne_nil _ _ hne, List.getLast?_reverse] at hx
  exact dropWhile_head?_false jsWs l x hx

theorem jsTrimL_getLast_false (l : List Char) :
    ∀ x, (jsTrimL l).getLast? = some x → jsWs x = false := by
  intro x hx
  unfold jsTrimL at hx
  rw [List.getLast?_reverse] at hx
  exact dropWhile_head?_false jsWs _ x hx

theorem jsTrimL_eq_self (l : List Char)
    (h1 : ∀ x, l.head? = some x → jsWs x = false)
    (h2 : ∀ x, l.getLast? = some x → jsWs x = false) : jsTrimL l = l := by
  unfold jsTrimL
  rw [dropWhile_eq_self_of_head jsWs l h1]
  rw [dropWhile_eq_self_of_head jsWs l.reverse
    (fun x hx => h2 x (by rwa [List.head?_reverse] at hx))]
  exact List.reverse_reverse l

theorem jsTrimL_idem (l : List Char) : jsTrimL (jsTrimL l) = jsTrimL l :=
  jsTrimL_eq_self _ (jsTrimL_head_false l) (jsTrimL_getLast_false l)

theorem uriUnreserved_not_ws (c : Char) (h : uriUnreserved c = true) :
    jsWs c = false := by
  by_contra hws
  rw [Bool.not_eq_false] at hws
  unfold jsWs at hws
  rcases Bool.or_eq_true_iff.1 hws with h5 | h6
  rcases Bool.or_eq_true_iff.1 h5 with h4 | h6
  rcases Bool.or_eq_true_iff.1 h4 with h3 | h6
  rcases Bool.or_eq_true_iff.1 h3 with h2 | h6
  rcases Bool.or_eq_true_iff.1 h2 with h6 | h6
  all_goals
    rw [decide_eq_true_iff] at h6
    subst h6
    exact absurd h (by decide)

theorem hexDigitU_not_ws (k : Nat) (h : k < 16) : jsWs (hexDigitU k) = false := by
  interval_cases k <;> decide

theorem utf8BytesOf_lt (n : Nat) (hn : n < 0x110000) :
    ∀ b ∈ utf8BytesOf n, b < 256 := by
  intro b hb
  unfold utf8BytesOf at hb
  split at hb
  · simp at hb; omega
  · split at hb
    · simp at hb; rcases hb with hb | hb <;> omega
    · split at hb
      · simp at hb; rcases hb with hb | hb | hb <;> omega
      · simp at hb; rcases hb with hb | hb | hb | hb <;> omega

theorem char_toNat_lt (c : Char) : c.toNat < 0x110000 := by
  rcases c.valid with h | h
  · exact Nat.lt_trans h (by norm_num)
  · exact h.2

theorem foldrBytes_not_ws (bs : List Nat) (h : ∀ b ∈ bs, b < 256) :
    ∀ x ∈ bs.foldr
      (fun b acc => '%' :: hexDigitU (b / 16) :: hexDigitU (b % 16) :: acc) [],
      jsWs x = false := by
  induction bs with
  | nil => intro x hx; simp at hx
  | cons b t ih =>
    intro x hx
    have hb : b < 256 := h b (by simp)
    simp only [List.foldr_cons, List.mem_cons] at hx
    rcases hx with hx | hx | hx | hx
    · subst hx; decide
    · subst hx; exact hexDigitU_not_ws _ (by omega)
    · subst hx; exact hexDigitU_not_ws _ (by omega)
    · exact ih (fun y hy => h y (by simp [hy])) x hx

theorem encodeChar_not_ws (c : Char) : ∀ x ∈ encodeChar c, jsWs x = false := by
  intro x hx
  by_cases hres : uriUnreserved c = true
  · rw [encodeChar, if_pos hres] at hx
    simp at hx
    subst hx
    exact uriUnreserved_not_ws _ hres
  · rw [encodeChar, if_neg hres] at hx
    exact foldrBytes_not_ws _ (utf8BytesOf_lt c.toNat (char_toNat_lt c)) x hx

theorem foldrEncode_not_ws (l : List Char) :
    ∀ x ∈ l.foldr (fun c acc => encodeChar c ++ acc) [], jsWs x = false := by
  induction l with
  | nil => intro x hx; simp at hx
  | cons c t ih =>
    intro x hx
    simp only [List.foldr_cons, List.mem_append] at hx
    rcases hx with hx | hx
    · exact encodeChar_not_ws c x hx
    · exact ih x hx

theorem encodeURIComponent_not_ws (s : String) :
    ∀ x ∈ (encodeURIComponent s).data, jsWs x = false := by
  intro x hx
  exact foldrEncode_not_ws s.data x hx

theorem isPrefixOf_append_self (p r : List Char) : p.isPrefixOf (p ++ r) = true := by
  induction p with
  | nil => simp [List.isPrefixOf]
  | cons c t ih => simp [List.isPrefixOf, ih]

theorem isPrefixOfCI_append_self (p r : List Char) : isPrefixOfCI p (p ++ r) = true := by
  induction p with
  | nil => rfl
  | cons c t ih => simp [isPrefixOfCI, ih]

theorem normalizeUrlCore_https_append (u : List Char) :
    normalizeUrlCore ("https://".data ++ u) = "https://".data ++ u := rfl

theorem normalizeUrlCore_search_append (u : List Char) :
    normalizeUrlCore ("https://duckduckgo.com/?q=".data ++ u) =
      "https://duckduckgo.com/?q=".data ++ u := rfl

theorem normalizeUrlShimCore_https_append (u : List Char) :
    normalizeUrlShimCore ("https://".data ++ u) = "https://".data ++ u := by
  have hcons : ("https://".data ++ u) =
      'h' :: ("ttps://".data ++ u) := rfl
  have c0 : ¬(("https://".data ++ u).isEmpty = true) := by
    rw [hcons]; simp
  have cmd : ¬(("mdbrowse://".data).isPrefixOf ("https://".data ++ u) = true) := by
    intro h
    exact absurd ((rfl :
      ("mdbrowse://".data).isPrefixOf ("https://".data ++ u) = false) ▸ h) (by simp)
  have h2 : (("http://".data).isPrefixOf ("https://".data ++ u) ||
      ("https://".data).isPrefixOf ("https://".data ++ u)) = true := by
    rw [isPrefixOf_append_self, Bool.or_true]
  rw [normalizeUrlShimCore, if_neg c0, if_neg cmd, if_pos h2]

theorem normalizeUrlCore_idem_on (u : List Char) :
    normalizeUrlCore (normalizeUrlCore u) = normalizeUrlCore u := by
  cases u with
  | nil => rfl
  | cons c t =>
    have c0 : ¬((c :: t).isEmpty = true) := by simp
    by_cases h1 : ("mdbrowse://".data).isPrefixOf (c :: t) = true
    · have hcu : normalizeUrlCore (c :: t) = c :: t := by
        rw [normalizeUrlCore, if_neg c0, if_pos h1]
      rw [hcu]; exact hcu
    · by_cases h2 : isHttpUrl (c :: t) = true
      · have hcu : normalizeUrlCore (c :: t) = c :: t := by
          rw [normalizeUrlCore, if_neg c0, if_neg h1, if_pos h2]
        rw [hcu]; exact hcu
      · by_cases h3 : ((c :: t).contains '.' && !((c :: t).contains ' ')) = true
        · have hcu : normalizeUrlCore (c :: t) = "https://".data ++ (c :: t) := by
            rw [normalizeUrlCore, if_neg c0, if_neg h1, if_neg h2, if_pos h3]
          rw [hcu]
          exact normalizeUrlCore_https_append _
        · have hcu : normalizeUrlCore (c :: t) =
              "https://duckduckgo.com/?q=".data ++
                (encodeURIComponent (String.mk (c :: t))).data := by
            rw [normalizeUrlCore, if_neg c0, if_neg h1, if_neg h2, if_neg h3]
          rw [hcu]
          exact normalizeUrlCore_search_append _

theorem normalizeUrlShimCore_idem_on (u : List Char) :
    normalizeUrlShimCore (normalizeUrlShimCore u) = normalizeUrlShimCore u := by
  cases u with
  | nil => rfl
  | cons c t =>
    have c0 : ¬((c :: t).isEmpty = true) := by simp
    by_cases h1 : ("mdbrowse://".data).isPrefixOf (c :: t) = true
    · have hcu : normalizeUrlShimCore (c :: t) = c :: t := by
        rw [normalizeUrlShimCore, if_neg c0, if_pos h1]
      rw [hcu]; exact hcu
    · by_cases h2 : (("http://".data).isPrefixOf (c :: t) ||
          ("https://".data).isPrefixOf (c :: t)) = true
      · have hcu : normalizeUrlShimCore (c :: t) = c :: t := by
          rw [normalizeUrlShimCore, if_neg c0, if_neg h1, if_pos h2]
        rw [hcu]; exact hcu
      · by_cases h3 : ((c :: t).contains '.' && !((c :: t).contains ' ')) = true
        · have hcu : normalizeUrlShimCore (c :: t) = "https://".data ++ (c :: t) := by
            rw [normalizeUrlShimCore, if_neg c0, if_neg h1, if_neg h2, if_pos h3]
          rw [hcu]
          exact normalizeUrlShimCore_https_append _
        · have hcu : normalizeUrlShimCore (c :: t) = "https://".data ++ (c :: t) := by
            rw [normalizeUrlShimCore, if_neg c0, if_neg h1, if_neg h2, if_neg h3]
          rw [hcu]
          exact normalizeUrlShimCore_https_append _

theorem ws_in_search_head_false : ∀ y ∈ ("https://duckduckgo.com/?q=".data : List Char),
    jsWs y = false := by decide

theorem normalizeUrlCore_trim_fix (u : List Char) (hu : jsTrimL u = u) :
    jsTrimL (normalizeUrlCore u) = normalizeUrlCore u := by
  cases u with
  | nil => rfl
  | cons c t =>
    have c0 : ¬((c :: t).isEmpty = true) := by simp
    by_cases h1 : ("mdbrowse://".data).isPrefixOf (c :: t) = true
    · rw [normalizeUrlCore, if_neg c0, if_pos h1]; exact hu
    · by_cases h2 : isHttpUrl (c :: t) = true
      · rw [normalizeUrlCore, if_neg c0, if_neg h1, if_pos h2]; exact hu
      · by_cases h3 : ((c :: t).contains '.' && !((c :: t).contains ' ')) = true
        · rw [normalizeUrlCore, if_neg c0, if_neg h1, if_neg h2, if_pos h3]
          refine jsTrimL_eq_self _ ?_ ?_
          · intro x hx
            rw [show ("https://".data ++ (c :: t)) =
              'h' :: ("ttps://".data ++ (c :: t)) from rfl] at hx
            simp only [List.head?_cons, Option.some.injEq] at hx
            subst hx; decide
          · intro x hx
            rw [List.getLast?_append_of_ne_nil _ (by simp)] at hx
            rw [← hu] at hx
            exact jsTrimL_getLast_false _ x hx
        · rw [normalizeUrlCore, if_neg c0, if_neg h1, if_neg h2, if_neg h3]
          refine jsTrimL_eq_self _ ?_ ?_
          · intro x hx
            rw [show ("https://duckduckgo.com/?q=".data ++
              (encodeURIComponent (String.mk (c :: t))).data) =
              'h' :: ("ttps://duckduckgo.com/?q=".data ++
                (encodeURIComponent (String.mk (c :: t))).data) from rfl] at hx
            simp only [List.head?_cons, Option.some.injEq] at hx
            subst hx; decide
          · intro x hx
            have hmem := List.mem_of_mem_getLast? hx
            rcases List.mem_append.1 hmem with hm | hm
            · exact ws_in_search_head_false x hm
            · exact encodeURIComponent_not_ws _ x hm

theorem normalizeUrlShimCore_trim_fix (u : List Char) (hu : jsTrimL u = u) :
    jsTrimL (normalizeUrlShimCore u) = normalizeUrlShimCore u := by
  cases u with
  | nil => rfl
  | cons c t =>
    have c0 : ¬((c :: t).isEmpty = true) := by simp
    have htail : jsTrimL ("https://".data ++ (c :: t)) = "https://".data ++ (c :: t) := by
      refine jsTrimL_eq_self _ ?_ ?_
      · intro x hx
        rw [show ("https://".data ++ (c :: t)) =
          'h' :: ("ttps://".data ++ (c :: t)) from rfl] at hx
        simp only [List.head?_cons, Option.some.injEq] at hx
        subst hx; decide
      · intro x hx
        rw [List.getLast?_append_of_ne_nil _ (by simp)] at hx
        rw [← hu] at hx
        exact jsTrimL_getLast_false _ x hx
    by_cases h1 : ("mdbrowse://".data).isPrefixOf (c :: t) = true
    · rw [normalizeUrlShimCore, if_neg c0, if_pos h1]; exact hu
    · by_cases h2 : (("http://".data).isPrefixOf (c :: t) ||
          ("https://".data).isPrefixOf (c :: t)) = true
      · rw [normalizeUrlShimCore, if_neg c0, if_neg h1, if_pos h2]; exact hu
      · by_cases h3 : ((c :: t).contains '.' && !((c :: t).contains ' ')) = true
        · rw [normalizeUrlShimCore, if_neg c0, if_neg h1, if_neg h2, if_pos h3]
          exact htail
        · rw [normalizeUrlShimCore, if_neg c0, if_neg h1, if_neg h2, if_neg h3]
          exact htail

/-- Claim C10: both URL normalizers are idempotent, and free text is mapped on
the first application to an https-scheme fixed point (a search URL in the bun
process, an https-prefixed string in the view shim). -/
theorem c10_normalize_url_idempotent :
    (∀ s, normalizeUrl (normalizeUrl s) = normalizeUrl s) ∧
    (∀ s, normalizeUrlShim (normalizeUrlShim s) = normalizeUrlShim s) ∧
    normalizeUrl "hello world" = "https://duckduckgo.com/?q=hello%20world" ∧
    normalizeUrlShim "hello world" = "https://hello world" := by
  refine ⟨fun s => ?_, fun s => ?_, by decide, by decide⟩
  · show String.mk (normalizeUrlCore (jsTrimL (normalizeUrlCore (jsTrimL s.data)))) =
      String.mk (normalizeUrlCore (jsTrimL s.data))
    rw [normalizeUrlCore_trim_fix _ (jsTrimL_idem s.data), normalizeUrlCore_idem_on]
  · show String.mk (normalizeUrlShimCore (jsTrimL (normalizeUrlShimCore (jsTrimL s.data)))) =
      String.mk (normalizeUrlShimCore (jsTrimL s.data))
    rw [normalizeUrlShimCore_trim_fix _ (jsTrimL_idem s.data), normalizeUrlShimCore_idem_on]

/-- Claim C1: the spec requires `cleanupTurndownOutput` to be idempotent, but
the implementation is not: on the input consisting of a space, a digit and a
period, the final trim of the first pass exposes an orphaned list-number line
that the second pass then deletes.  Both the bun-process variant and the
shared-module variant fail on this input. -/
theorem c1_cleanup_not_idempotent :
    cleanupTurndownOutput " 1." = "1." ∧
    cleanupTurndownOutput (cleanupTurndownOutput " 1.") = "" ∧
    cleanupTurndownOutput (cleanupTurndownOutput " 1.") ≠
      cleanupTurndownOutput " 1." ∧
    cleanupTurndownOutputShared (cleanupTurndownOutputShared " 1.") ≠
      cleanupTurndownOutputShared " 1." :=
  ⟨rfl, rfl, by decide, by decide⟩

/-- Anchor elements as probed by the blank-link rules: `textContent` plus the
attribute reads `getAttribute("href")`, `getAttribute("aria-label")`,
`getAttribute("title")`, and the `alt` attribute of the first `img[alt]`
descendant found by `querySelector` (`none` models a null result). -/
structure DomNode where
  nodeName : String
  textContent : String
  hrefAttr : Option String
  ariaLabelAttr : Option String
  titleAttr : Option String
  imgAltAttr : Option String

/-- The helper `getLinkLabel` of `src/shared/turndown.ts`: resolve a label
from text content, `aria-label`, `title`, then contained image `alt`. -/
def getLinkLabel (node : DomNode) : String :=
  let textContent := normalizeWhitespace node.textContent
  if textContent ≠ "" then textContent
  else
    let ariaLabel := normalizeWhitespace (node.ariaLabelAttr.getD "")
    if ariaLabel ≠ "" then ariaLabel
    else
      let title := normalizeWhitespace (node.titleAttr.getD "")
      if title ≠ "" then title
      else
        let imgAlt := normalizeWhitespace (node.imgAltAttr.getD "")
        if imgAlt ≠ "" then imgAlt
        else ""

/-- Filter of the `preserveBlankLinks` rule in `src/shared/turndown.ts`: an
anchor with an `href` attribute whose text is empty after whitespace
normalization. -/
def preserveBlankLinksFilter (node : DomNode) : Bool :=
  node.nodeName == "A" && node.hrefAttr.isSome &&
    normalizeWhitespace node.textContent == ""

/-- Replacement of the `preserveBlankLinks` rule: emit a standard link whose
label falls back from `getLinkLabel` to the `href` itself; emit the label
alone when the trimmed `href` is empty. -/
def preserveBlankLinksReplacement (node : DomNode) : String :=
  let href := jsTrim (node.hrefAttr.getD "")
  let label := if getLinkLabel node = "" then href else getLinkLabel node
  if href = "" then label
  else "[" ++ label ++ "](" ++ href ++ ")"

/-- Filter of the `removeBlankLinks` rule in `src/bun/index.ts` (duplicated in
`src/toolbar-svelte/lib/rpc.ts`): an anchor with an `href` attribute whose
text content trims to the empty string. -/
def removeBlankLinksFilter (node : DomNode) : Bool :=
  node.nodeName == "A" && node.hrefAttr.isSome && jsTrim node.textContent == ""

/-- Replacement of the `removeBlankLinks` rule: the anchor is dropped. -/
def removeBlankLinksReplacement (_ : DomNode) : String := ""

/-- Anchor with an `href` but no label source at all. -/
def blankAnchor : DomNode :=
  ⟨"A", "", some "https://example.com", none, none, none⟩

/-- Anchor whose text is only whitespace but which carries every label
source; `aria-label` must win. -/
def ariaAnchor : DomNode :=
  ⟨"A", "\n  ", some "https://example.com", some "Example", some "The title",
    some "logo alt"⟩

/-- Anchor with a `title` attribute and an image `alt`; `title` must win. -/
def titleAnchor : DomNode :=
  ⟨"A", "", some "https://example.com", none, some "My Title", some "logo"⟩

/-- Anchor whose only label source is a contained image `alt`. -/
def imgAltAnchor : DomNode :=
  ⟨"A", "", some "/samples", none, none, some "needle tools logo"⟩

/-- Claim C2: the shared converter's `preserveBlankLinks` rule indeed emits a
standard link for a blank anchor, resolving the label in the priority order
accessible-name, title, image alt, href; but the converter actually
registered by the bun process (and the view shim) uses `removeBlankLinks`,
whose replacement drops the anchor entirely, contradicting the claim for
those converters. -/
theorem c2_blank_link_rules :
    preserveBlankLinksFilter blankAnchor = true ∧
    preserveBlankLinksReplacement blankAnchor =
      "[https://example.com](https://example.com)" ∧
    preserveBlankLinksReplacement ariaAnchor = "[Example](https://example.com)" ∧
    preserveBlankLinksReplacement titleAnchor = "[My Title](https://example.com)" ∧
    preserveBlankLinksReplacement imgAltAnchor = "[needle tools logo](/samples)" ∧
    removeBlankLinksFilter blankAnchor = true ∧
    removeBlankLinksReplacement blankAnchor = "" :=
  ⟨rfl, rfl, rfl, rfl, rfl, rfl, rfl⟩

/-- Table elements as probed by the `ignoreLayoutTables` filters: the number
of `th` descendants returned by `querySelectorAll("th")` and whether
`querySelector("table")` finds a nested table. -/
structure TableNode where
  nodeName : String
  thCount : Nat
  hasNestedTable : Bool

/-- Filter of `ignoreLayoutTables` in `src/shared/turndown.ts`: a table
with no header cells. -/
def ignoreLayoutTablesFilterShared (n : TableNode) : Bool :=
  n.nodeName == "TABLE" && n.thCount == 0

/-- Filter of `ignoreLayoutTables` in `src/bun/index.ts` and in
`src/toolbar-svelte/lib/rpc.ts`: a table with no header cells that also
contains a nested table. -/
def ignoreLayoutTablesFilterBun (n : TableNode) : Bool :=
  n.nodeName == "TABLE" && n.thCount == 0 && n.hasNestedTable

/-- Replacement of `ignoreLayoutTables` (all variants): the converted inner
content padded by blank lines, with no table syntax. -/
def ignoreLayoutTablesReplacement (content : String) : String :=
  "\n\n" ++ content ++ "\n\n"

/-- JavaScript `Array.prototype.findIndex` (as an `Option Nat`). -/
def jsFindIndex (p : α → Bool) : List α → Option Nat
  | [] => none
  | c :: t => if p c then some 0 else (jsFindIndex p t).map (· + 1)

/-- The rule-reordering performed after `addRule("ignoreLayoutTables", ...)`:
find the rule by key, splice it out, and unshift it to the front of the rule
array, so that it runs before the plugin's generic table rule. -/
def promoteRuleKeys (key : String) (keys : List String) : List String :=
  match jsFindIndex (fun k => k == key) keys with
  | none => keys
  | some i => keys.getD i "" :: keys.eraseIdx i

theorem jsFindIndex_of_mem (key : String) :
    ∀ t : List String, key ∈ t →
      ∃ j, jsFindIndex (fun k => k == key) t = some j := by
  intro t
  induction t with
  | nil => intro h; simp at h
  | cons c t ih =>
    intro h
    by_cases hc : (c == key) = true
    · exact ⟨0, by simp [jsFindIndex, hc]⟩
    · have hmem : key ∈ t := by
        rcases List.mem_cons.1 h with h1 | h1
        · exact absurd (by simp [h1] : (c == key) = true) hc
        · exact h1
      obtain ⟨j, hj⟩ := ih hmem
      exact ⟨j + 1, by rw [jsFindIndex, if_neg hc, hj]; rfl⟩

theorem promoteRuleKeys_head (key : String) :
    ∀ keys : List String, key ∈ keys →
      (promoteRuleKeys key keys).head? = some key := by
  intro keys
  induction keys with
  | nil => intro h; simp at h
  | cons c t ih =>
    intro h
    by_cases hc : (c == key) = true
    · have hck : c = key := by simpa using hc
      rw [promoteRuleKeys]
      simp [jsFindIndex, hc, hck]
    · have hmem : key ∈ t := by
        rcases List.mem_cons.1 h with h1 | h1
        · exact absurd (by simp [h1] : (c == key) = true) hc
        · exact h1
      have hrec := ih hmem
      obtain ⟨j, hfi⟩ := jsFindIndex_of_mem key t hmem
      rw [promoteRuleKeys, jsFindIndex, if_neg hc, hfi]
      rw [promoteRuleKeys, hfi] at hrec
      simp only [List.head?_cons, Option.some.injEq] at hrec
      show ((c :: t).getD (j + 1) "" :: (c :: t).eraseIdx (j + 1)).head? = some key
      simp only [List.head?_cons, Option.some.injEq]
      simpa using hrec

/-- Claim C7 (amended): the shared converter treats every header-less table
as a layout container, while the bun-process and view-shim converters require
a nested table as well; the replacement pads the converted inner content with
blank lines, and the registered rule is moved to the front of the rule array
so that it runs before the plugin's generic table rule. -/
theorem c7_layout_table_rules :
    (∀ n : TableNode, ignoreLayoutTablesFilterShared n = true ↔
      n.nodeName = "TABLE" ∧ n.thCount = 0) ∧
    (∀ n : TableNode, ignoreLayoutTablesFilterBun n = true ↔
      n.nodeName = "TABLE" ∧ n.thCount = 0 ∧ n.hasNestedTable = true) ∧
    (∀ content, ignoreLayoutTablesReplacement content =
      "\n\n" ++ content ++ "\n\n") ∧
    (∀ keys : List String, "ignoreLayoutTables" ∈ keys →
      (promoteRuleKeys "ignoreLayoutTables" keys).head? =
        some "ignoreLayoutTables") := by
  refine ⟨fun n => ?_, fun n => ?_, fun content => rfl,
    promoteRuleKeys_head "ignoreLayoutTables"⟩
  · unfold ignoreLayoutTablesFilterShared
    simp [Bool.and_eq_true]
  · unfold ignoreLayoutTablesFilterBun
    simp [Bool.and_eq_true, and_assoc]

/-- Claim C7 counterexample: a table with no header cells and no nested table
is NOT matched by the layout-table rule registered in the bun process and the
view shim, so such a table is not treated as a layout container there (it
falls through to the generic table rule), contrary to the claim as stated. -/
theorem c7_layout_table_counterexample :
    ignoreLayoutTablesFilterBun ⟨"TABLE", 0, false⟩ = false := rfl

/-- Claim C7 witness for the promotion conjunct of the amended theorem. -/
theorem c7_layout_table_rules_witness :
    (promoteRuleKeys "ignoreLayoutTables" ["p", "table", "ignoreLayoutTables"]).head? =
      some "ignoreLayoutTables" :=
  c7_layout_table_rules.2.2.2 ["p", "table", "ignoreLayoutTables"] (by decide)

/-- Constant from `src/shared/start-page.ts`. -/
def START_PAGE_URL : String := "mdbrowse://start"

/-- Constant from `src/shared/start-page.ts`. -/
def START_PAGE_TITLE : String := "MDBrowse"

/-- Constant from `src/shared/start-page.ts`. -/
def START_PAGE_MARKDOWN : String := "# MDBrowse\n\nA markdown-first browser. Choose a destination:\n\n- [docs.vercel.com](https://docs.vercel.com)\n- [docs.needle.tools](https://docs.needle.tools)\n- [needle.tools](https://needle.tools)\n- [samples.needle.tools](https://samples.needle.tools)\n- [github.com](https://github.com)\n- [wikipedia.org](https://wikipedia.org)\n- [google.com](https://google.com)\n- [news.ycombinator.com](https://news.ycombinator.com)\n"

/-- Constant from `src/shared/start-page.ts` (curly braces written as hex
escapes). -/
def START_PAGE_HTML : String := "<!DOCTYPE html>\n<html>\n<head>\n  <meta charset=\"UTF-8\" />\n  <title>MDBrowse</title>\n  <style>\n    :root \x7b color-scheme: light dark; \x7d\n    body \x7b\n      font-family: -apple-system, BlinkMacSystemFont, \"SF Pro Text\", \"Segoe UI\", Roboto, system-ui, sans-serif;\n      margin: 0;\n      padding: 32px 28px;\n      line-height: 1.6;\n      background: #ffffff;\n      color: #1a1a1a;\n    \x7d\n    h1 \x7b margin: 0 0 8px 0; \x7d\n    p \x7b margin: 8px 0 16px 0; \x7d\n    ul \x7b margin: 0 0 20px 18px; padding: 0; \x7d\n    li \x7b margin: 6px 0; \x7d\n    a \x7b color: #007acc; text-decoration: none; \x7d\n    a:hover \x7b text-decoration: underline; \x7d\n    kbd \x7b\n      font-family: ui-monospace, SFMono-Regular, Menlo, Monaco, Consolas, \"Liberation Mono\", \"Courier New\", monospace;\n      font-size: 0.9em;\n      padding: 2px 6px;\n      border-radius: 6px;\n      background: rgba(128, 128, 128, 0.15);\n      border: 1px solid rgba(128, 128, 128, 0.25);\n    \x7d\n    @media (prefers-color-scheme: dark) \x7b\n      body \x7b background: #1a1a1a; color: #e0e0e0; \x7d\n      a \x7b color: #4db8ff; \x7d\n      kbd \x7b background: rgba(255, 255, 255, 0.08); border-color: rgba(255, 255, 255, 0.2); \x7d\n    \x7d\n  </style>\n</head>\n<body>\n  <h1>MDBrowse</h1>\n  <p>A markdown-first browser. Choose a destination:</p>\n  <ul>\n    <li><a href=\"https://docs.vercel.com\">docs.vercel.com</a></li>\n    <li><a href=\"https://docs.needle.tools\">docs.needle.tools</a></li>\n    <li><a href=\"https://needle.tools\">needle.tools</a></li>\n    <li><a href=\"https://samples.needle.tools\">samples.needle.tools</a></li>\n    <li><a href=\"https://github.com\">github.com</a></li>\n    <li><a href=\"https://wikipedia.org\">wikipedia.org</a></li>\n    <li><a href=\"https://google.com\">google.com</a></li>\n    <li><a href=\"https://news.ycombinator.com\">news.ycombinator.com</a></li>\n  </ul>\n</body>\n</html>\n"

/-- Case-sensitive prefix test written so that it reduces by iota on the
pattern argument. -/
def isPrefixOfCS : List Char → List Char → Bool
  | [], _ => true
  | _ :: _, [] => false
  | p :: ps, c :: cs => (p == c) && isPrefixOfCS ps cs

/-- JavaScript `String.prototype.includes` (on character lists). -/
def containsSub (pat : List Char) : List Char → Bool
  | [] => pat.isEmpty
  | l@(_ :: t) => isPrefixOfCS pat l || containsSub pat t

/-- Index of the first occurrence of `pat` (case-insensitive when `ci`). -/
def findSubIdx (ci : Bool) (pat : List Char) : List Char → Option Nat
  | [] => if pat.isEmpty then some 0 else none
  | l@(_ :: t) =>
    if (if ci then isPrefixOfCI pat l else isPrefixOfCS pat l) then some 0
    else (findSubIdx ci pat t).map (· + 1)

/-- A global lazy-block replace such as
`text.replace(/<head[\s\S]*?<\/head>/gi, "")`: the first match starts at the
earliest occurrence of the opening pattern that is completed by a later
occurrence of the closing pattern (lazy, so the nearest one); scanning resumes
after the match.  If the earliest opening occurrence has no completion, no
later one has either, and the input is left unchanged. -/
def removeLazyGo (ci : Bool) (openPat closePat : List Char) :
    Nat → List Char → List Char
  | 0, l => l
  | fuel + 1, l =>
    match findSubIdx ci openPat l with
    | none => l
    | some i =>
      let rest := l.drop (i + openPat.length)
      match findSubIdx ci closePat rest with
      | none => l
      | some j =>
        l.take i ++
          removeLazyGo ci openPat closePat fuel (rest.drop (j + closePat.length))

def removeLazyBlocks (ci : Bool) (openPat closePat : String) (l : List Char) :
    List Char :=
  removeLazyGo ci openPat.data closePat.data (l.length + 1) l

/-- Try to match `/<a[^>]*>\s*<\/a>/i` at the current position: `<a`, then
attribute characters up to the first `>`, then whitespace, then `</a>`; since
`</a>` starts with a non-whitespace character, the greedy `\s*` can only stop
after the whole whitespace run. -/
def matchEmptyAnchor (l : List Char) : Option (List Char) :=
  if isPrefixOfCI "<a".data l then
    match breakAt '>' (l.drop 2) with
    | none => none
    | some (_, rest) =>
      let rest2 := rest.dropWhile jsWs
      if isPrefixOfCI "</a>".data rest2 then some (rest2.drop 4) else none
  else none

/-- The global replace `text.replace(/<a[^>]*>\s*<\/a>/gi, "")`. -/
def emptyAnchorGo : Nat → List Char → List Char
  | 0, l => l
  | _ + 1, [] => []
  | fuel + 1, c :: t =>
    match matchEmptyAnchor (c :: t) with
    | some rest => emptyAnchorGo fuel rest
    | none => c :: emptyAnchorGo fuel t

def removeEmptyAnchors (l : List Char) : List Char :=
  emptyAnchorGo (l.length + 1) l

/-- First match of `/<tag[\s\S]*?>([\s\S]*?)<\/tag>/i`: the captured group
between the first `>` after the earliest completable opening tag and the
nearest closing tag. -/
def extractTagGroup (openTag closeTag : String) (l : List Char) :
    Option (List Char) :=
  match findSubIdx true openTag.data l with
  | none => none
  | some i =>
    match breakAt '>' (l.drop (i + openTag.data.length)) with
    | none => none
    | some (_, rest2) =>
      match findSubIdx true closeTag.data rest2 with
      | none => none
      | some j => some (rest2.take j)

/-- The HTML cleanup performed before conversion in `fetchPage`
(`src/bun/index.ts`) and `shimFetchPage` (`src/toolbar-svelte/lib/rpc.ts`):
strip head/script/style/noscript/comment/nav/footer/aside/form/iframe blocks
and empty anchors, then select the first `main` region, else the first
`article` region, else the `body` region, else the whole text. -/
def reduceHtml (text : List Char) : List Char :=
  let c0 := removeLazyBlocks true "<head" "</head>" text
  let c1 := removeLazyBlocks true "<script" "</script>" c0
  let c2 := removeLazyBlocks true "<style" "</style>" c1
  let c3 := removeLazyBlocks true "<noscript" "</noscript>" c2
  let c4 := removeLazyBlocks false "<!--" "-->" c3
  let c5 := removeLazyBlocks true "<nav" "</nav>" c4
  let c6 := removeLazyBlocks true "<footer" "</footer>" c5
  let c7 := removeLazyBlocks true "<aside" "</aside>" c6
  let c8 := removeLazyBlocks true "<form" "</form>" c7
  let c9 := removeLazyBlocks true "<iframe" "</iframe>" c8
  let c10 := removeEmptyAnchors c9
  match (extractTagGroup "<main" "</main>" c10).orElse
      (fun _ => extractTagGroup "<article" "</article>" c10) with
  | some inner => inner
  | none =>
    match extractTagGroup "<body" "</body>" c10 with
    | some inner => inner
    | none => c10

/-- Greatest index `k` with `1 <= k < w.length` whose character is not a
newline; used for the backtracking of `\s+` against `.+` when the heading
pattern has nothing after the whitespace run. -/
def maxNonNlIdx : List Char → Option Nat
  | [] => none
  | [_] => none
  | _ :: c1 :: rest =>
    match maxNonNlIdx (c1 :: rest) with
    | some k => some (k + 1)
    | none => if c1 ≠ '\n' then some 1 else none

/-- Try to match `#\s+(.+)$` with the leading `#` already consumed: the
greedy `\s+` takes the whole whitespace run when a non-newline character
follows, and otherwise backs off just enough for `.+` to match inside the
run. -/
def headingAt (l : List Char) : Option (List Char) :=
  let w := l.takeWhile jsWs
  let r := l.drop w.length
  if w.isEmpty then none
  else if r.isEmpty = false then some (r.takeWhile (fun c => c ≠ '\n'))
  else
    match maxNonNlIdx w with
    | some k => some ((w.drop k).takeWhile (fun c => c ≠ '\n'))
    | none => none

/-- Scan the line starts after each newline for the heading pattern. -/
def findHeadingGo : List Char → Option (List Char)
  | [] => none
  | c :: t =>
    if c = '\n' then
      (match t with
       | '#' :: rest => headingAt rest
       | _ => none).orElse (fun _ => findHeadingGo t)
    else findHeadingGo t

/-- First match of `markdown.match(/^#\s+(.+)$/m)`: the text of the first
top-level heading line. -/
def findHeadingTitle (l : List Char) : Option (List Char) :=
  (match l with
   | '#' :: rest => headingAt rest
   | _ => none).orElse (fun _ => findHeadingGo l)

/-- Try to match `/<title[^>]*>([^<]+)<\/title>/i` at the current position. -/
def htmlTitleAt (l : List Char) : Option (List Char) :=
  if isPrefixOfCI "<title".data l then
    match breakAt '>' (l.drop 6) with
    | none => none
    | some (_, rest) =>
      let titleTxt := rest.takeWhile (fun c => c ≠ '<')
      if titleTxt.isEmpty then none
      else if isPrefixOfCI "</title>".data (rest.drop titleTxt.length) then
        some titleTxt
      else none
  else none

/-- First match of `text.match(/<title[^>]*>([^<]+)<\/title>/i)`. -/
def findHtmlTitle : List Char → Option (List Char)
  | [] => none
  | c :: t => (htmlTitleAt (c :: t)).orElse (fun _ => findHtmlTitle t)

/-- The `PageContent` record of `src/shared/types.ts`. -/
structure PageContent where
  url : String
  markdown : String
  rawHtml : String
  title : String
  wasMarkdown : Bool
deriving Repr, DecidableEq

/-- The `BrowserSettings` record of `src/shared/types.ts`. -/
structure BrowserSettings where
  sendAcceptMd : Bool
  autoConvert : Bool
  allowJavascript : Bool
deriving Repr, DecidableEq

/-- Outcome of the network fetch inside `fetchPage`.  A successful outcome
carries the response content type, the decoded body text, the post-redirect
URL `response.url`, and `hostname`, which stands for
`new URL(finalUrl).hostname` (the URL of a completed fetch is a valid
absolute URL, so that construction cannot throw).  A failure stands for a
rejected fetch, which the surrounding `try` converts into the synthetic
error document. -/
inductive FetchOutcome where
  | success (contentType text finalUrl hostname : String)
  | failure (message : String)

/-- The non-start-page body of `fetchPage` in `src/bun/index.ts` for a
response that arrived (the code inside `try`, after decoding): classify the
response, pick a title, and either keep the text verbatim (native path) or
reduce/convert/normalize the markup.  The third-party conversion engine
`turndown.turndown` is the pluggable `convert` argument. -/
def handleFetchResponse (convert : String → String) (s : BrowserSettings)
    (contentType text finalUrl hostname : String) : PageContent :=
  if containsSub "text/markdown".data contentType.data ||
      containsSub "text/x-markdown".data contentType.data ||
      (containsSub "text/plain".data contentType.data &&
        !(("<!".data).isPrefixOf (jsTrimL text.data)) &&
        !(("<html".data).isPrefixOf (jsTrimL text.data))) then
    let title := match findHeadingTitle text.data with
      | some t => String.mk t
      | none => hostname
    ⟨finalUrl, text, "", title, true⟩
  else
    let title := match findHtmlTitle text.data with
      | some t => jsTrim (String.mk t)
      | none => hostname
    if s.autoConvert then
      ⟨finalUrl,
        cleanupTurndownOutput (convert (String.mk (reduceHtml text.data))),
        text, title, false⟩
    else ⟨finalUrl, text, text, title, false⟩

/-- The synthetic error document built in the `catch` branch of
`fetchPage`. -/
def errorPageContent (url message : String) : PageContent :=
  ⟨url,
    "# Error Loading Page\n\nFailed to load: " ++ url ++ "\n\n**Error:** " ++
      message,
    "<h1>Error Loading Page</h1><p>Failed to load: " ++ url ++
      "</p><p><strong>Error:</strong> " ++ message ++ "</p>",
    "Error", false⟩

/-- The `fetchPage` function of `src/bun/index.ts`: serve the start page from
the built-in constants, otherwise classify and convert the fetched response,
falling back to the synthetic error document when the fetch failed. -/
def fetchPage (convert : String → String) (s : BrowserSettings) (url : String)
    (outcome : FetchOutcome) : PageContent :=
  if url = START_PAGE_URL then
    if s.sendAcceptMd then
      ⟨START_PAGE_URL, START_PAGE_MARKDOWN, "", START_PAGE_TITLE, true⟩
    else
      let markdown :=
        if s.autoConvert then cleanupTurndownOutput (convert START_PAGE_HTML)
        else START_PAGE_HTML
      ⟨START_PAGE_URL, markdown, START_PAGE_HTML, START_PAGE_TITLE, false⟩
  else
    match outcome with
    | .success contentType text finalUrl hostname =>
      handleFetchResponse convert s contentType text finalUrl hostname
    | .failure message => errorPageContent url message

/-- Claim C6: a response whose content type contains `text/markdown` is
classified native (`wasMarkdown = true`) and its body is the decoded text
verbatim, with `rawHtml` empty and no conversion applied. -/
theorem c6_markdown_native_verbatim (convert : String → String)
    (s : BrowserSettings) (contentType text finalUrl hostname : String)
    (h : containsSub "text/markdown".data contentType.data = true) :
    (handleFetchResponse convert s contentType text finalUrl hostname).wasMarkdown
        = true ∧
    (handleFetchResponse convert s contentType text finalUrl hostname).markdown
        = text ∧
    (handleFetchResponse convert s contentType text finalUrl hostname).rawHtml
        = "" := by
  have hcond : (containsSub "text/markdown".data contentType.data ||
      containsSub "text/x-markdown".data contentType.data ||
      (containsSub "text/plain".data contentType.data &&
        !(("<!".data).isPrefixOf (jsTrimL text.data)) &&
        !(("<html".data).isPrefixOf (jsTrimL text.data)))) = true := by
    rw [h]
    rfl
  rw [handleFetchResponse.eq_def, if_pos hcond]
  exact ⟨rfl, rfl, rfl⟩

/-- Claim C6 witness: a concrete markdown response goes through unchanged. -/
theorem c6_markdown_native_verbatim_witness :
    (handleFetchResponse id ⟨true, true, false⟩ "text/markdown; charset=utf-8"
        "# Hi\n\nSome *markdown* body." "https://example.com/doc.md"
        "example.com").wasMarkdown = true ∧
    (handleFetchResponse id ⟨true, true, false⟩ "text/markdown; charset=utf-8"
        "# Hi\n\nSome *markdown* body." "https://example.com/doc.md"
        "example.com").markdown = "# Hi\n\nSome *markdown* body." ∧
    (handleFetchResponse id ⟨true, true, false⟩ "text/markdown; charset=utf-8"
        "# Hi\n\nSome *markdown* body." "https://example.com/doc.md"
        "example.com").rawHtml = "" :=
  c6_markdown_native_verbatim id ⟨true, true, false⟩ "text/markdown; charset=utf-8"
    "# Hi\n\nSome *markdown* body." "https://example.com/doc.md" "example.com"
    (by decide)

/-- Claim C9: every document produced by a completed `fetchPage` call (start
page, native, derived markup, or the synthetic error document) satisfies
`wasMarkdown = true → rawHtml = ""`. -/
theorem c9_native_implies_no_raw_html (convert : String → String)
    (s : BrowserSettings) (url : String) (outcome : FetchOutcome)
    (h : (fetchPage convert s url outcome).wasMarkdown = true) :
    (fetchPage convert s url outcome).rawHtml = "" := by
  by_cases hurl : url = START_PAGE_URL
  · rw [fetchPage.eq_def, if_pos hurl] at h ⊢
    by_cases hsend : s.sendAcceptMd = true
    · rw [if_pos hsend]
    · rw [if_neg hsend] at h
      exact absurd h (by simp)
  · rw [fetchPage.eq_def, if_neg hurl] at h ⊢
    cases outcome with
    | failure message =>
      dsimp only at h
      exact absurd h (by simp [errorPageContent])
    | success contentType text finalUrl hostname =>
      dsimp only at h ⊢
      by_cases hcl : (containsSub "text/markdown".data contentType.data ||
          containsSub "text/x-markdown".data contentType.data ||
          (containsSub "text/plain".data contentType.data &&
            !(("<!".data).isPrefixOf (jsTrimL text.data)) &&
            !(("<html".data).isPrefixOf (jsTrimL text.data)))) = true
      · rw [handleFetchResponse.eq_def, if_pos hcl]
      · rw [handleFetchResponse.eq_def, if_neg hcl] at h
        by_cases hac : s.autoConvert = true
        · rw [if_pos hac] at h
          exact absurd h (by simp)
        · rw [if_neg hac] at h
          exact absurd h (by simp)

/-- Claim C9 witness: the native start-page document has an empty
`rawHtml`. -/
theorem c9_native_implies_no_raw_html_witness :
    (fetchPage id ⟨true, true, false⟩ "mdbrowse://start"
        (FetchOutcome.failure "unused")).rawHtml = "" :=
  c9_native_implies_no_raw_html id ⟨true, true, false⟩ "mdbrowse://start"
    (FetchOutcome.failure "unused") (by decide)

/-- The per-tab state of the bun process (`interface Tab` in
`src/bun/index.ts`). -/
structure Tab where
  id : Nat
  url : String
  title : String
  history : List String
  historyIndex : Int
  isLoading : Bool
  content : Option PageContent
deriving Repr, DecidableEq

/-- A fresh tab as built at startup, by `createTab`, and by `closeTab` when
the last tab was closed. -/
def newTab (id : Nat) : Tab :=
  ⟨id, "", "New Tab", [], -1, false, none⟩

/-- JavaScript `array.slice(0, e)`: a negative end counts from the end of the
array. -/
def jsSlice0 (l : List α) (e : Int) : List α :=
  l.take (if e < 0 then ((l.length : Int) + e).toNat else e.toNat)

/-- The history update performed after a successful fetch in the `navigate`
handler of `src/bun/index.ts`: truncate the forward history beyond the
cursor, push the post-redirect URL unless it equals the last entry of the
truncated history, and set the cursor to the last index. -/
def navHistoryUpdate (history : List String) (historyIndex : Int)
    (newUrl : String) : List String × Int :=
  let h1 := if historyIndex < (history.length : Int) - 1 then
    jsSlice0 history (historyIndex + 1) else history
  let h2 := if h1.getLast? ≠ some newUrl then h1 ++ [newUrl] else h1
  (h2, (h2.length : Int) - 1)

/-- The part of the `navigate` handler that runs before its `await`: mark the
tab loading and adopt the normalized target URL. -/
def navStart (t : Tab) (target : String) : Tab :=
  { t with isLoading := true, url := target }

/-- The part of the `navigate` handler that runs after its `await` resolves
with `content`: commit the document and update the history.  The handler
performs no comparison between the resolved content and the tab's current
target URL before committing. -/
def navCommit (t : Tab) (content : PageContent) : Tab :=
  let hu := navHistoryUpdate t.history t.historyIndex content.url
  { t with
    url := content.url
    title := content.title
    content := some content
    isLoading := false
    history := hu.1
    historyIndex := hu.2 }

/-- The `goBack` handler run to completion: a no-op when the cursor is at or
below zero, otherwise decrement the cursor, re-fetch the URL now at the
cursor (the `getD` models the JS array read, in range under the tab
invariant) and commit the result without touching the history. -/
def goBackOp (t : Tab) (result : PageContent) : Tab :=
  if t.historyIndex ≤ 0 then t
  else
    let t1 := { t with
      historyIndex := t.historyIndex - 1
      isLoading := true
      url := t.history.getD (t.historyIndex - 1).toNat "" }
    { t1 with
      url := result.url
      title := result.title
      content := some result
      isLoading := false }

/-- The `goForward` handler run to completion, symmetric to `goBackOp`. -/
def goForwardOp (t : Tab) (result : PageContent) : Tab :=
  if (t.history.length : Int) - 1 ≤ t.historyIndex then t
  else
    let t1 := { t with
      historyIndex := t.historyIndex + 1
      isLoading := true
      url := t.history.getD (t.historyIndex + 1).toNat "" }
    { t1 with
      url := result.url
      title := result.title
      content := some result
      isLoading := false }

/-- One navigation-affecting request on a tab, run to completion under the
sequential semantics of the event loop.  `nav input result ok` is a
`navigate` request with raw input `input` whose fetch resolves with `result`
(the post-redirect URL is arbitrary) when `ok`, and rejects otherwise
(taking the handler's catch branch). -/
inductive NavOp where
  | nav (input : String) (result : PageContent) (ok : Bool)
  | back (result : PageContent)
  | fwd (result : PageContent)

/-- Apply one request to a tab, following the handlers of
`src/bun/index.ts`. -/
def applyNavOp (t : Tab) : NavOp → Tab
  | .nav input result ok =>
    let n := normalizeUrl input
    if n = "" then t
    else if ok then navCommit (navStart t n) result
    else { navStart t n with isLoading := false }
  | .back result => goBackOp t result
  | .fwd result => goForwardOp t result

def applyNavOps (t : Tab) (ops : List NavOp) : Tab :=
  ops.foldl applyNavOp t

/-- The `NavigationState` record of `src/shared/types.ts`. -/
structure NavigationState where
  canGoBack : Bool
  canGoForward : Bool
  isLoading : Bool
  url : String
  title : String

/-- The `getNavigationState` function of `src/bun/index.ts` (over the active
tab, which may be absent). -/
def getNavigationState (tab? : Option Tab) : NavigationState :=
  match tab? with
  | some tab =>
    ⟨decide (tab.historyIndex > 0),
      decide (tab.historyIndex < (tab.history.length : Int) - 1),
      tab.isLoading, tab.url, tab.title⟩
  | none => ⟨false, false, false, "", ""⟩

/-- The tab history invariant of the specification: the cursor stays in
range and is negative exactly on an empty history. -/
def tabInvariant (t : Tab) : Prop :=
  -1 ≤ t.historyIndex ∧ t.historyIndex < (t.history.length : Int) ∧
    (t.historyIndex = -1 ↔ t.history = [])

theorem invariant_of_last_index (h2 : List String) :
    -1 ≤ (h2.length : Int) - 1 ∧ (h2.length : Int) - 1 < (h2.length : Int) ∧
      ((h2.length : Int) - 1 = -1 ↔ h2 = []) := by
  refine ⟨by omega, by omega, ?_⟩
  rw [← List.length_eq_zero]
  omega

theorem applyNavOp_invariant (t : Tab) (op : NavOp) (ht : tabInvariant t) :
    tabInvariant (applyNavOp t op) := by
  obtain ⟨ht1, ht2, ht3⟩ := ht
  have ht3' : t.historyIndex = -1 ↔ (t.history.length : Int) = 0 := by
    rw [ht3, ← List.length_eq_zero]
    omega
  cases op with
  | nav input result ok =>
    dsimp only [applyNavOp]
    by_cases hn : normalizeUrl input = ""
    · rw [if_pos hn]; exact ⟨ht1, ht2, ht3⟩
    · rw [if_neg hn]
      by_cases hok : ok = true
      · rw [if_pos hok]
        exact invariant_of_last_index
          ((navHistoryUpdate t.history t.historyIndex result.url).1)
      · rw [if_neg hok]
        exact ⟨ht1, ht2, ht3⟩
  | back result =>
    dsimp only [applyNavOp, goBackOp]
    by_cases hb : t.historyIndex ≤ 0
    · rw [if_pos hb]; exact ⟨ht1, ht2, ht3⟩
    · rw [if_neg hb]
      refine ⟨?_, ?_, ?_⟩
      · show -1 ≤ t.historyIndex - 1
        omega
      · show t.historyIndex - 1 < (t.history.length : Int)
        omega
      · show t.historyIndex - 1 = -1 ↔ t.history = []
        rw [← List.length_eq_zero]
        omega
  | fwd result =>
    dsimp only [applyNavOp, goForwardOp]
    by_cases hf : (t.history.length : Int) - 1 ≤ t.historyIndex
    · rw [if_pos hf]; exact ⟨ht1, ht2, ht3⟩
    · rw [if_neg hf]
      refine ⟨?_, ?_, ?_⟩
      · show -1 ≤ t.historyIndex + 1
        omega
      · show t.historyIndex + 1 < (t.history.length : Int)
        omega
      · show t.historyIndex + 1 = -1 ↔ t.history = []
        rw [← List.length_eq_zero]
        omega

theorem applyNavOps_invariant (ops : List NavOp) :
    ∀ t, tabInvariant t → tabInvariant (applyNavOps t ops) := by
  induction ops with
  | nil => intro t ht; exact ht
  | cons op rest ih => intro t ht; exact ih _ (applyNavOp_invariant t op ht)

theorem newTab_invariant (n : Nat) : tabInvariant (newTab n) :=
  ⟨le_refl _, by simp [newTab], by simp [newTab]⟩

/-- Claim C4: after any finite sequence of navigate, goBack and goForward
requests applied to a fresh tab, the cursor satisfies
`-1 <= historyIndex < history.length` with `historyIndex = -1` exactly when
the history is empty, and the navigation state reports `canGoBack` exactly
when the cursor is positive and `canGoForward` exactly when it is before the
last entry. -/
theorem c4_history_invariant (ops : List NavOp) :
    tabInvariant (applyNavOps (newTab 1) ops) ∧
    ((getNavigationState (some (applyNavOps (newTab 1) ops))).canGoBack = true ↔
      (applyNavOps (newTab 1) ops).historyIndex > 0) ∧
    ((getNavigationState (some (applyNavOps (newTab 1) ops))).canGoForward = true ↔
      (applyNavOps (newTab 1) ops).historyIndex <
        ((applyNavOps (newTab 1) ops).history.length : Int) - 1) := by
  refine ⟨applyNavOps_invariant ops (newTab 1) (newTab_invariant 1), ?_, ?_⟩
  · simp [getNavigationState]
  · simp [getNavigationState]

/-- A fetch result for `url` whose post-redirect URL is `url` itself. -/
def pageFor (u : String) : PageContent :=
  ⟨u, "body", "", "title", true⟩

/-- The interleaving in which `navigate("https://a.example/")` reaches its
`await`, then `navigate("https://b.example/")` reaches its `await`, then B's
fetch resolves and commits, and finally A's stale fetch resolves and is
committed as well, because the handler performs no staleness check. -/
def staleNavigationTab : Tab :=
  navCommit
    (navCommit
      (navStart (navStart (newTab 1) (normalizeUrl "https://a.example/"))
        (normalizeUrl "https://b.example/"))
      (pageFor "https://b.example/"))
    (pageFor "https://a.example/")

/-- Claim C3: the claim demands that after navigate(A) followed by
navigate(B) the tab reflects B only; but when A's in-flight fetch resolves
after B's, the `navigate` handler commits the stale A result over B's, so the
final url, document and history reflect A. -/
theorem c3_stale_navigation_committed :
    staleNavigationTab.url = "https://a.example/" ∧
    staleNavigationTab.content = some (pageFor "https://a.example/") ∧
    staleNavigationTab.history = ["https://b.example/", "https://a.example/"] ∧
    staleNavigationTab.url ≠ "https://b.example/" :=
  ⟨rfl, rfl, rfl, by decide⟩

/-- The history update of `shimNavigate` in `src/toolbar-svelte/lib/rpc.ts`:
the new URL is compared against the LAST history entry BEFORE truncation, and
when they are equal the whole update (truncation and cursor move included) is
skipped. -/
def shimNavHistoryUpdate (history : List String) (historyIndex : Int)
    (newUrl : String) : List String × Int :=
  if history.getLast? ≠ some newUrl then
    let h1 := if historyIndex < (history.length : Int) - 1 then
      jsSlice0 history (historyIndex + 1) else history
    (h1 ++ [newUrl], ((h1 ++ [newUrl]).length : Int) - 1)
  else (history, historyIndex)

/-- Modelled from the spec: the navigate history update of section 4.5 —
truncate any forward history beyond the current cursor, then append the
resulting URL (skipping the append when it equals the URL already at the
cursor) and advance the cursor to point at the last entry. -/
def specNavHistoryUpdate (history : List String) (cursor : Int)
    (newUrl : String) : List String × Int :=
  let truncated := history.take (cursor + 1).toNat
  let atCursor := if 0 ≤ cursor then history[cursor.toNat]? else none
  if atCursor = some newUrl then (truncated, (truncated.length : Int) - 1)
  else (truncated ++ [newUrl], ((truncated ++ [newUrl]).length : Int) - 1)

theorem getLast?_take_succ (l : List String) (k : Nat) (hk : k < l.length) :
    (l.take (k + 1)).getLast? = l[k]? := by
  induction l generalizing k with
  | nil => simp at hk
  | cons c t ih =>
    cases k with
    | zero => simp
    | succ k' =>
      have hk' : k' < t.length := by simpa using hk
      have hrec := ih k' hk'
      rw [List.take_succ_cons, List.getElem?_cons_succ]
      cases htt : t.take (k' + 1) with
      | nil =>
        rcases List.take_eq_nil_iff.1 htt with h | h
        · exact absurd h (by omega)
        · rw [h] at hk'; simp at hk'
      | cons d ds =>
        rw [htt] at hrec
        rw [List.getLast?_cons_cons]
        exact hrec

/-- Claim C5 (amended): the bun-process navigate handler updates the history
exactly as the claim states — truncate the forward history, append the
post-redirect URL unless it equals the entry at the cursor, and advance the
cursor to the last entry — whenever the cursor is in range; the view shim's
update differs (see the counterexample). -/
theorem c5_navigate_history_update (history : List String) (cursor : Int)
    (newUrl : String) (h1 : -1 ≤ cursor) (h2 : cursor < (history.length : Int)) :
    navHistoryUpdate history cursor newUrl =
      specNavHistoryUpdate history cursor newUrl := by
  have htr : (if cursor < (history.length : Int) - 1 then
      jsSlice0 history (cursor + 1) else history) =
      history.take (cursor + 1).toNat := by
    by_cases hc : cursor < (history.length : Int) - 1
    · rw [if_pos hc]
      unfold jsSlice0
      rw [if_neg (by omega : ¬(cursor + 1 < 0))]
    · rw [if_neg hc]
      have hlen : (cursor + 1).toNat = history.length := by omega
      rw [hlen, List.take_length]
  have hcmp : (history.take (cursor + 1).toNat).getLast? =
      (if 0 ≤ cursor then history[cursor.toNat]? else none) := by
    by_cases hpos : 0 ≤ cursor
    · rw [if_pos hpos]
      have hk : cursor.toNat < history.length := by omega
      have hsucc : (cursor + 1).toNat = cursor.toNat + 1 := by omega
      rw [hsucc, getLast?_take_succ history cursor.toNat hk]
    · rw [if_neg hpos]
      have hz : (cursor + 1).toNat = 0 := by omega
      rw [hz]
      simp
  unfold navHistoryUpdate specNavHistoryUpdate
  dsimp only
  rw [htr, hcmp]
  by_cases hq : (if 0 ≤ cursor then history[cursor.toNat]? else none) =
      some newUrl
  · rw [if_neg (by simpa using hq), if_pos hq]
  · rw [if_pos (by simpa using hq), if_neg hq]

/-- Claim C5 witness at a concrete in-range history. -/
theorem c5_navigate_history_update_witness :
    navHistoryUpdate ["https://a.example/"] 0 "https://b.example/" =
      specNavHistoryUpdate ["https://a.example/"] 0 "https://b.example/" :=
  c5_navigate_history_update ["https://a.example/"] 0 "https://b.example/"
    (by decide) (by decide)

/-- Claim C5 counterexample: with history A, B and the cursor on A, a
navigation resolving to B must (per the claim) truncate the forward history,
append B after A, and advance the cursor to the last entry; the view shim
instead compares B against the last entry (B), skips everything, and leaves
the cursor on A. -/
theorem c5_shim_history_counterexample :
    shimNavHistoryUpdate ["https://a.example/", "https://b.example/"] 0
        "https://b.example/" =
      (["https://a.example/", "https://b.example/"], 0) ∧
    specNavHistoryUpdate ["https://a.example/", "https://b.example/"] 0
        "https://b.example/" =
      (["https://a.example/", "https://b.example/"], 1) ∧
    shimNavHistoryUpdate ["https://a.example/", "https://b.example/"] 0
        "https://b.example/" ≠
      specNavHistoryUpdate ["https://a.example/", "https://b.example/"] 0
        "https://b.example/" :=
  ⟨by decide, by decide, by decide⟩

/-- The top-level session state of the bun process: the tab array, the id of
the active tab, and the monotone id counter. -/
structure Session where
  tabs : List Tab
  activeTabId : Nat
  nextTabId : Nat
deriving Repr

/-- The `closeTab` handler of `src/bun/index.ts`: remove the tab found by id
(a no-op when absent); when the closed tab was active, activate the survivor
at the same index clamped to the new length, or synthesize and activate a
fresh empty tab when no tab remains. -/
def closeTabOp (s : Session) (tabId : Nat) : Session :=
  match jsFindIndex (fun t => t.id == tabId) s.tabs with
  | none => s
  | some index =>
    let remaining := s.tabs.eraseIdx index
    if s.activeTabId = tabId then
      if 0 < remaining.length then
        let newIndex := min index (remaining.length - 1)
        { s with
          tabs := remaining
          activeTabId := (remaining.getD newIndex (newTab 0)).id }
      else
        let t := newTab s.nextTabId
        { tabs := remaining ++ [t], activeTabId := t.id,
          nextTabId := s.nextTabId + 1 }
    else { s with tabs := remaining }

theorem jsFindIndex_lt (p : α → Bool) :
    ∀ (l : List α) (i : Nat), jsFindIndex p l = some i → i < l.length := by
  intro l
  induction l with
  | nil => intro i h; simp [jsFindIndex] at h
  | cons c t ih =>
    intro i h
    rw [jsFindIndex] at h
    by_cases hc : p c = true
    · rw [if_pos hc] at h
      simp only [Option.some.injEq] at h
      subst h
      simp
    · rw [if_neg hc] at h
      cases hf : jsFindIndex p t with
      | none => rw [hf] at h; simp at h
      | some j =>
        rw [hf] at h
        simp only [Option.map_some', Option.some.injEq] at h
        subst h
        have := ih j hf
        simp
        omega

theorem jsFindIndex_getD (p : α → Bool) (d : α) :
    ∀ (l : List α) (i : Nat), jsFindIndex p l = some i →
      p (l.getD i d) = true := by
  intro l
  induction l with
  | nil => intro i h; simp [jsFindIndex] at h
  | cons c t ih =>
    intro i h
    rw [jsFindIndex] at h
    by_cases hc : p c = true
    · rw [if_pos hc] at h
      simp only [Option.some.injEq] at h
      subst h
      simpa using hc
    · rw [if_neg hc] at h
      cases hf : jsFindIndex p t with
      | none => rw [hf] at h; simp at h
      | some j =>
        rw [hf] at h
        simp only [Option.map_some', Option.some.injEq] at h
        subst h
        simpa using ih j hf

theorem mem_eraseIdx_of_ne (x : α) : ∀ (l : List α) (i : Nat), x ∈ l →
    (∀ h : i < l.length, x ≠ l[i]) → x ∈ l.eraseIdx i := by
  intro l
  induction l with
  | nil => intro i h; simp at h
  | cons c t ih =>
    intro i hx hne
    cases i with
    | zero =>
      rcases List.mem_cons.1 hx with h | h
      · exact absurd h (hne (by simp))
      · simpa [List.eraseIdx] using h
    | succ j =>
      rcases List.mem_cons.1 hx with h | h
      · simp [List.eraseIdx, h]
      · have hmem := ih j h (fun hlt => by
          have := hne (by simpa using Nat.succ_lt_succ hlt)
          simpa using this)
        simp [List.eraseIdx, hmem]

theorem getD_mem (l : List α) (i : Nat) (d : α) (h : i < l.length) :
    l.getD i d ∈ l := by
  rw [List.getD_eq_getElem l d h]
  exact List.getElem_mem h

/-- Claim C8: assuming the session invariant (the active id belongs to some
tab), after any `closeTab` the session still has at least one tab and the
active id refers to an existing tab; closing the last remaining tab
synthesizes a fresh empty tab (with the next fresh id) and activates it, and
closing the active tab activates the survivor at the closed tab's index
clamped to the new length. -/
theorem c8_close_tab_invariant (s : Session) (tabId : Nat)
    (h : ∃ t ∈ s.tabs, t.id = s.activeTabId) :
    (closeTabOp s tabId).tabs ≠ [] ∧
    (∃ t ∈ (closeTabOp s tabId).tabs, t.id = (closeTabOp s tabId).activeTabId) ∧
    (∀ t : Tab, s.tabs = [t] → t.id = tabId →
      (closeTabOp s tabId).tabs = [newTab s.nextTabId] ∧
      (closeTabOp s tabId).activeTabId = s.nextTabId) ∧
    (∀ i, jsFindIndex (fun t => t.id == tabId) s.tabs = some i →
      s.activeTabId = tabId → s.tabs.eraseIdx i ≠ [] →
      (closeTabOp s tabId).activeTabId =
        ((s.tabs.eraseIdx i).getD (min i ((s.tabs.eraseIdx i).length - 1))
          (newTab 0)).id) := by
  obtain ⟨t0, ht0mem, ht0id⟩ := h
  cases hfi : jsFindIndex (fun t => t.id == tabId) s.tabs with
  | none =>
    have hcl : closeTabOp s tabId = s := by
      unfold closeTabOp
      rw [hfi]
    rw [hcl]
    refine ⟨List.ne_nil_of_mem ht0mem, ⟨t0, ht0mem, ht0id⟩, ?_, ?_⟩
    · intro t htabs htid
      rw [htabs, jsFindIndex, if_pos (by simp [htid])] at hfi
      simp at hfi
    · intro i hfi2 _ _
      exact absurd hfi2 (by simp)
  | some i =>
    have hidx := jsFindIndex_lt _ s.tabs i hfi
    have hid : (s.tabs.getD i (newTab 0)).id = tabId := by
      simpa using jsFindIndex_getD _ (newTab 0) s.tabs i hfi
    by_cases hact : s.activeTabId = tabId
    · by_cases hrem : 0 < (s.tabs.eraseIdx i).length
      · have hcl : closeTabOp s tabId = { s with
            tabs := s.tabs.eraseIdx i
            activeTabId := ((s.tabs.eraseIdx i).getD
              (min i ((s.tabs.eraseIdx i).length - 1)) (newTab 0)).id } := by
          unfold closeTabOp
          rw [hfi]
          dsimp only
          rw [if_pos hact, if_pos hrem]
        rw [hcl]
        have hmin : min i ((s.tabs.eraseIdx i).length - 1) <
            (s.tabs.eraseIdx i).length := by omega
        refine ⟨?_, ?_, ?_, ?_⟩
        · intro he
          rw [show (s.tabs.eraseIdx i) = [] from he] at hrem
          simp at hrem
        · exact ⟨_, getD_mem _ _ _ hmin, rfl⟩
        · intro t htabs htid
          exfalso
          rw [htabs] at hidx hrem
          have hi0 : i = 0 := by simpa using hidx
          rw [hi0] at hrem
          simp [List.eraseIdx] at hrem
        · intro i' hfi' _ _
          have hii : i = i' := by simpa using hfi'
          rw [← hii]
      · have hremnil : s.tabs.eraseIdx i = [] := by
          cases hE : s.tabs.eraseIdx i with
          | nil => rfl
          | cons a b => rw [hE] at hrem; simp at hrem
        have hcl : closeTabOp s tabId = {
            tabs := s.tabs.eraseIdx i ++ [newTab s.nextTabId]
            activeTabId := s.nextTabId
            nextTabId := s.nextTabId + 1 } := by
          unfold closeTabOp
          rw [hfi]
          dsimp only
          rw [if_pos hact, if_neg hrem]
          rfl
        rw [hcl, hremnil]
        refine ⟨by simp, ⟨newTab s.nextTabId, by simp, rfl⟩, ?_, ?_⟩
        · intro t htabs htid
          exact ⟨by simp, rfl⟩
        · intro i' hfi' _ hne
          have hii : i = i' := by simpa using hfi'
          rw [← hii] at hne
          exact absurd hremnil hne
    · have hcl : closeTabOp s tabId = { s with tabs := s.tabs.eraseIdx i } := by
        unfold closeTabOp
        rw [hfi]
        dsimp only
        rw [if_neg hact]
      rw [hcl]
      have ht0ne : t0 ∈ s.tabs.eraseIdx i := by
        apply mem_eraseIdx_of_ne t0 s.tabs i ht0mem
        intro hlt heq
        apply hact
        rw [← ht0id, heq, ← List.getD_eq_getElem s.tabs (newTab 0) hlt]
        exact hid
      refine ⟨List.ne_nil_of_mem ht0ne, ⟨t0, ht0ne, ht0id⟩, ?_, ?_⟩
      · intro t htabs htid
        exfalso
        apply hact
        rw [htabs] at ht0mem
        have ht0t : t0 = t := by simpa using ht0mem
        rw [← ht0id, ht0t, htid]
      · intro i' _ hacteq _
        exact absurd hacteq hact

/-- Claim C8 witness: closing the active first tab of a two-tab session keeps
the session invariant. -/
theorem c8_close_tab_invariant_witness :
    (closeTabOp ⟨[newTab 1, newTab 2], 1, 3⟩ 1).tabs ≠ [] ∧
    (∃ t ∈ (closeTabOp ⟨[newTab 1, newTab 2], 1, 3⟩ 1).tabs,
      t.id = (closeTabOp ⟨[newTab 1, newTab 2], 1, 3⟩ 1).activeTabId) ∧
    (∀ t : Tab, [newTab 1, newTab 2] = [t] → t.id = 1 →
      (closeTabOp ⟨[newTab 1, newTab 2], 1, 3⟩ 1).tabs = [newTab 3] ∧
      (closeTabOp ⟨[newTab 1, newTab 2], 1, 3⟩ 1).activeTabId = 3) ∧
    (∀ i, jsFindIndex (fun t => t.id == 1) [newTab 1, newTab 2] = some i →
      1 = 1 → ([newTab 1, newTab 2] : List Tab).eraseIdx i ≠ [] →
      (closeTabOp ⟨[newTab 1, newTab 2], 1, 3⟩ 1).activeTabId =
        ((([newTab 1, newTab 2] : List Tab).eraseIdx i).getD
          (min i ((([newTab 1, newTab 2] : List Tab).eraseIdx i).length - 1))
          (newTab 0)).id) :=
  c8_close_tab_invariant ⟨[newTab 1, newTab 2], 1, 3⟩ 1
    ⟨newTab 1, by simp, rfl⟩
